import Mathlib

/-!
Shallow embedding of the `http_dir` HTTP static-file server (Rust crate by
Sherlock-Holo) and proofs about its request pipeline.

The embedding follows the crate's sources:
  * `src/serve_dir.rs`   — the `ServeDir` service (`serveDirCall`, `buildResponse`)
  * `src/open_file.rs`   — the open-file pipeline (`openFile`, `checkModifiedHeaders`,
                           `preferredEncodingStep`, `openFileWithFallback`,
                           `fileMetadataWithFallback`, `maybeRedirectOrAppendPath`,
                           `appendSlashOnPath`)
  * `src/fs/disk.rs`     — the on-disk backend (`buildAndValidatePath`, `diskFS`)
  * `src/fs/include_dir.rs` — the embedded backend (`startSeek`, `pollReadAll`)
  * `src/fs/single_file.rs` — the single-file adapter (`singleFileFS`)
  * `src/async_body.rs`  — the streaming body adapter (bodies are modelled as the
                           byte list the stream yields)

Machine integers: file sizes and cursors are `Nat` (Rust `u64`/`usize` on a 64-bit
host); the one place overflow matters (`usize::checked_add_signed` in the embedded
backend's seek) is modelled with an explicit `2 ^ 64` bound.

External collaborators (per the crate's own boundary): percent-decoding, MIME
guessing and `Range`-header grammar parsing are consumed from external crates and
are passed in as the `Externals` record of oracles.  `http::Uri` is modelled by the
`Uri` record.  Rust `Path`/`PathBuf` values are modelled as their list of
raw `/`-separated segments (`RPath`), with `rcomponents` reproducing Unix
`Path::components` normalisation; `PathBuf` equality compares components.

Two crate modules (`content_encoding.rs`, `headers.rs`) are declared in `lib.rs`
but their sources are not in the tree; the definitions derived from them are
explicitly marked `Modelled from the spec:` below.
-/

set_option maxHeartbeats 1600000

/-! ## I/O errors -/

/-- Kinds of `std::io::Error` the crate distinguishes (`NotFound`,
`PermissionDenied`, `InvalidInput`; everything else is `other`). -/
inductive ErrorKind where
  | notFound
  | permissionDenied
  | invalidInput
  | other
deriving DecidableEq, Repr

/-- Model of `std::io::Error`: only the kind is observable to the handler. -/
structure IOErr where
  kind : ErrorKind
deriving DecidableEq, Repr

/-- The error `io::Error::from(ErrorKind::NotFound)`. -/
def nfErr : IOErr := ⟨ErrorKind.notFound⟩

/-- The error `io::Error::new(ErrorKind::InvalidInput, ...)` raised by the
embedded backend's seek. -/
def invalidInputErr : IOErr := ⟨ErrorKind.invalidInput⟩

/-! ## Strings: structural re-implementations of the string operations used,
so that witnesses evaluate inside the kernel. -/

/-- Split a character list at a separator, `String::split`-style:
`"a/b" ↦ ["a","b"]`, `"" ↦ [""]`, `"/" ↦ ["",""]`. -/
def splitCharsOn (sep : Char) : List Char → List String
  | [] => [""]
  | c :: rest =>
    match splitCharsOn sep rest with
    | head :: tail =>
      if c = sep then "" :: head :: tail
      else String.mk (c :: head.data) :: tail
    | [] => [""]

/-- Whether a string's last character is `'/'` (Rust `str::ends_with('/')`). -/
def strEndsWithSlash (s : String) : Bool := s.data.getLast? == some '/'

/-- Rust `str::trim_start_matches('/')`: drop every leading `'/'`. -/
def strDropLeadingSlashes (s : String) : String :=
  String.mk (s.data.dropWhile (fun c => c == '/'))

/-! ## Paths

A Rust `Path`/`PathBuf` is modelled as the list of its raw `/`-separated
segments (`RPath`); `rcomponents` reproduces `Path::components` normalisation
on Unix (`Component::Prefix` is Windows-only and cannot arise here). -/

/-- Raw path segments, as produced by splitting the path string on `'/'`. -/
abbrev RPath := List String

/-- Build an `RPath` from a path string (Rust `Path::new`). -/
def RPath.ofString (s : String) : RPath := splitCharsOn '/' s.data

/-- Unix `std::path::Component`. -/
inductive Component where
  | rootDir
  | curDir
  | parentDir
  | normal (s : String)
deriving DecidableEq, Repr

/-- Classification of a non-leading raw segment, as in `Path::components`:
empty segments and `"."` are normalised away. -/
def classifyRest (seg : String) : Option Component :=
  if seg = "" then none
  else if seg = "." then none
  else if seg = ".." then some Component.parentDir
  else some (Component.normal seg)

/-- `Path::components` on the raw segment list (Unix rules): a leading empty
segment marks the root, a leading `"."` is kept as `CurDir`, later `""`/`"."`
segments are dropped, `".."` is `ParentDir`. -/
def rcomponents : RPath → List Component
  | [] => []
  | first :: rest =>
    (if first = "" then (if rest = [] then [] else [Component.rootDir])
     else if first = "." then [Component.curDir]
     else if first = ".." then [Component.parentDir]
     else [Component.normal first])
    ++ rest.filterMap classifyRest

/-- `PathBuf` equality (Rust `PartialEq` compares components). -/
def rpathEq (p q : RPath) : Bool := rcomponents p = rcomponents q

/-- Segments `Path::components` ignores in non-leading position. -/
def isIgnoredSeg (s : String) : Bool := s == "" || s == "."

/-- Rust `Path::file_name`: the final component when it is a `Normal` one. -/
def rFileName (p : RPath) : Option String :=
  match (rcomponents p).getLast? with
  | some (Component.normal s) => some s
  | _ => none

/-- Split a file name into Rust `file_stem`/`extension`: the extension is the
part after the last `'.'`, unless that dot is the first character. -/
def rsSplitExt (name : String) : String × Option String :=
  let cs := name.data
  match cs.reverse.findIdx? (fun c => c = '.') with
  | none => (name, none)
  | some j =>
    let i := cs.length - 1 - j
    if i = 0 then (name, none)
    else (String.mk (cs.take i), some (String.mk (cs.drop (i + 1))))

/-- Drop trailing segments that components-normalisation ignores (used by
`set_file_name`, which pops the last real component). -/
def rDropTrailingIgnored (p : RPath) : RPath :=
  (p.reverse.dropWhile isIgnoredSeg).reverse

/-- Rust `PathBuf::set_file_name` (callers guarantee `file_name` is `some`). -/
def rSetFileName (p : RPath) (n : String) : RPath :=
  (rDropTrailingIgnored p).dropLast ++ [n]

/-- Rust `Path::extension`. -/
def rExtension (p : RPath) : Option String :=
  (rFileName p).bind (fun n => (rsSplitExt n).2)

/-- Rust `PathBuf::set_extension`: no-op when there is no file name; an empty
argument removes the extension. -/
def rSetExtension (p : RPath) (ext : String) : RPath :=
  match rFileName p with
  | none => p
  | some name =>
    let stem := (rsSplitExt name).1
    let newName := if ext = "" then stem else stem ++ "." ++ ext
    rSetFileName p newName

/-- Rust `PathBuf::push` with a bare file name: a single trailing separator is
absorbed. -/
def rPush (p : RPath) (seg : String) : RPath :=
  match p with
  | [] => [seg]
  | _ => if p.getLastD "" = "" then p.dropLast ++ [seg] else p ++ [seg]

/-- Render an `RPath` back to a string (for the external MIME guesser). -/
def rPathToString : RPath → String
  | [] => ""
  | [s] => s
  | s :: rest => s ++ "/" ++ rPathToString rest

/-! ## Content encodings

`content_encoding.rs` is declared in `lib.rs` but its source is not in the
tree; `Encoding`'s operations are modelled from the spec (§3, §4.6). -/

/-- Content-encoding variants (spec §3). -/
inductive Encoding where
  | identity
  | gzip
  | deflate
  | br
deriving DecidableEq, Repr

/-- Modelled from the spec: each compressed variant's file-extension suffix
(`.gz`, `.zz`, `.br`); identity has none. (`content_encoding.rs` missing.) -/
def Encoding.toFileExtension : Encoding → Option String
  | Encoding.gzip => some ".gz"
  | Encoding.deflate => some ".zz"
  | Encoding.br => some ".br"
  | Encoding.identity => none

/-- Modelled from the spec: the canonical `Content-Encoding` token.
(`content_encoding.rs` missing.) -/
def Encoding.intoHeaderValue : Encoding → String
  | Encoding.identity => "identity"
  | Encoding.gzip => "gzip"
  | Encoding.deflate => "deflate"
  | Encoding.br => "br"

/-- Modelled from the spec: the fixed tie-break order `br > gzip > deflate`
(§4.6). (`content_encoding.rs` missing.) -/
def encodingRank : Encoding → Nat
  | Encoding.br => 3
  | Encoding.gzip => 2
  | Encoding.deflate => 1
  | Encoding.identity => 0

/-- Whether the first entry beats the second: higher q first, then rank. -/
def betterPick (p b : Encoding × Nat) : Bool :=
  decide (b.2 < p.2) || (decide (p.2 = b.2) && decide (encodingRank b.1 < encodingRank p.1))

/-- Pick the best entry of a list under `betterPick`. -/
def pickPreferred : List (Encoding × Nat) → Option (Encoding × Nat)
  | [] => none
  | p :: rest =>
    match pickPreferred rest with
    | none => some p
    | some b => if betterPick p b then some p else some b

/-- Modelled from the spec: `Encoding::preferred_encoding` — the best
compressed encoding with positive q among the negotiated ones, if any
(§4.6). (`content_encoding.rs` missing.) -/
def Encoding.preferredEncoding (negotiatedEncoding : List (Encoding × Nat)) : Option Encoding :=
  (pickPreferred (negotiatedEncoding.filter
    (fun pr => decide (0 < pr.2) && decide (pr.1 ≠ Encoding.identity)))).map Prod.fst

/-! ## Files, metadata and the filesystem capability (`src/fs/mod.rs`) -/

/-- An opened file: its byte contents, last-modified time (seconds; the
whole-second HTTP-date granularity of `headers.rs`) and read cursor. -/
structure MFile where
  contents : List Nat
  modified : Option Nat
  index : Nat
deriving DecidableEq, Repr

/-- `fs::Metadata` (`src/fs/mod.rs`). -/
structure Meta where
  modified : Option Nat
  len : Nat
deriving DecidableEq, Repr

/-- `FileExt::metadata` of an opened file. -/
def MFile.meta (f : MFile) : Meta := ⟨f.modified, f.contents.length⟩

/-- The `Filesystem` trait (`src/fs/mod.rs`): open, is_dir, metadata. -/
structure FS where
  openFn : RPath → Except IOErr MFile
  isDirFn : RPath → Except IOErr Bool
  metadataFn : RPath → Except IOErr Meta

/-- Rust `Result::unwrap_or` on an `is_dir` result. -/
def exceptGetD (x : Except IOErr Bool) (d : Bool) : Bool :=
  match x with
  | Except.ok b => b
  | Except.error _ => d

/-! ## On-disk backend (`src/fs/disk.rs`) -/

/-- Whether a component is `Component::Normal`. -/
def isNormalComp : Component → Bool
  | Component.normal _ => true
  | _ => false

/-- The component walk of `DiskFilesystem::build_and_validate_path`. -/
def buildAndValidatePathAux (acc : RPath) : List Component → Option RPath
  | [] => some acc
  | Component.normal comp :: rest =>
    if (rcomponents [comp]).all isNormalComp then
      buildAndValidatePathAux (acc ++ [comp]) rest
    else none
  | Component.curDir :: rest => buildAndValidatePathAux acc rest
  | Component.rootDir :: _ => none
  | Component.parentDir :: _ => none

/-- `DiskFilesystem::build_and_validate_path`: walk the requested path's
components; `Normal` components (whose own components are all `Normal`) are
appended to the base, `CurDir` is skipped, everything else rejects. -/
def buildAndValidatePath (base : RPath) (p : RPath) : Option RPath :=
  buildAndValidatePathAux base (rcomponents p)

/-- `DiskFilesystem`: every operation validates the path against the base and
then consults the host filesystem (`host`); a rejected path is `NotFound`. -/
def diskFS (base : RPath) (host : FS) : FS where
  openFn p :=
    match buildAndValidatePath base p with
    | none => Except.error nfErr
    | some q => host.openFn q
  isDirFn p :=
    match buildAndValidatePath base p with
    | none => Except.error nfErr
    | some q => host.isDirFn q
  metadataFn p :=
    match buildAndValidatePath base p with
    | none => Except.error nfErr
    | some q => host.metadataFn q

/-! ## Single-file adapter (`src/fs/single_file.rs`) -/

/-- `SingleFileFilesystem`: every operation fails with `NotFound` unless the
caller's path equals the configured `file_path` (PathBuf equality compares
components), and otherwise delegates to the wrapped filesystem. -/
def singleFileFS (filePath : RPath) (inner : FS) : FS where
  openFn p := if rpathEq filePath p then inner.openFn p else Except.error nfErr
  isDirFn p := if rpathEq filePath p then inner.isDirFn p else Except.error nfErr
  metadataFn p := if rpathEq filePath p then inner.metadataFn p else Except.error nfErr

/-! ## Embedded backend's file cursor (`src/fs/include_dir.rs`) -/

/-- `std::io::SeekFrom`. -/
inductive SeekFrom where
  | start (n : Nat)
  | end_ (off : Int)
  | current (off : Int)
deriving DecidableEq, Repr

/-- `usize::checked_add_signed` on a 64-bit host: `none` exactly when the
signed sum leaves `[0, 2^64)`. -/
def checkedAddSigned (n : Nat) (i : Int) : Option Nat :=
  let r : Int := (n : Int) + i
  if r < 0 ∨ (2 : Int) ^ 64 ≤ r then none else some r.toNat

/-- `IncludeDirFile::start_seek`: `Start` stores the position unchecked;
`End`/`Current` use `checked_add_signed` and fail with `InvalidInput` on
overflow. -/
def startSeek (f : MFile) (position : SeekFrom) : Except IOErr MFile :=
  match position with
  | SeekFrom.start s => Except.ok { f with index := s }
  | SeekFrom.end_ off =>
    match checkedAddSigned f.contents.length off with
    | some idx => Except.ok { f with index := idx }
    | none => Except.error invalidInputErr
  | SeekFrom.current off =>
    match checkedAddSigned f.index off with
    | some idx => Except.ok { f with index := idx }
    | none => Except.error invalidInputErr

/-- `IncludeDirFile::poll_read`, run to completion: an index at or past the end
yields no bytes, otherwise the contents from the cursor onward. -/
def pollReadAll (f : MFile) : List Nat :=
  if f.contents.length ≤ f.index then [] else f.contents.drop f.index

/-! ## URIs (`http::Uri`, as used by `append_slash_on_path`) -/

/-- Model of `http::Uri` parts: scheme, authority, and path-and-query. -/
structure Uri where
  scheme : Option String
  authority : Option String
  pathAndQuery : Option (String × Option String)
deriving DecidableEq, Repr

/-- `PathAndQuery::path`: an empty path renders as `"/"`. -/
def pqPath (p : String) : String := if p = "" then "/" else p

/-- `Uri::path`: the path of the path-and-query, `"/"` when absent. -/
def uriPath (u : Uri) : String :=
  match u.pathAndQuery with
  | some pq => pqPath pq.1
  | none => "/"

/-- `append_slash_on_path` (`src/open_file.rs`): rebuild the URI with the same
scheme and authority, the path with `"/"` appended, and the query kept. -/
def appendSlashOnPath (u : Uri) : Uri :=
  match u.pathAndQuery with
  | some pq => { u with pathAndQuery := some (pqPath pq.1 ++ "/", pq.2) }
  | none => { u with pathAndQuery := some ("/", none) }

/-- Rendering of a `Uri` (`http::Uri`'s `Display`), used to build the
`Location` header value. -/
def uriToString (u : Uri) : String :=
  (match u.scheme with | some s => s ++ "://" | none => "")
    ++ (match u.authority with | some a => a | none => "")
    ++ (match u.pathAndQuery with
        | some pq => pq.1 ++ (match pq.2 with | some q => "?" ++ q | none => "")
        | none => "")

/-! ## Requests and external oracles -/

/-- HTTP request method. -/
inductive Method where
  | get
  | head
  | other (s : String)
deriving DecidableEq, Repr

/-- A request, with the header-derived inputs the pipeline consumes already
extracted: the parsed `If-Unmodified-Since` / `If-Modified-Since` dates
(parsing lives in the missing `headers.rs`), the raw `Range` header, and the
negotiated encodings (the result of `content_encoding::encodings`, also from a
missing module). -/
structure Req where
  method : Method
  uri : Uri
  ifUnmodifiedSince : Option Nat
  ifModifiedSince : Option Nat
  rangeHeader : Option String
  negotiated : List (Encoding × Nat)

/-- External collaborators consumed from other crates: the percent-decoder,
the MIME guesser, and the `Range`-header parser (which validates ranges
against the file length). -/
structure Externals where
  percentDecode : String → Option String
  mimeGuess : String → Option String
  parseRange : String → Nat → Except Unit (List (Nat × Nat))

/-! ## Conditional headers (`check_modified_headers`, `src/open_file.rs`) -/

/-- Modelled from the spec: `IfUnmodifiedSince::precondition_passes` —
passes iff `file_mtime ≤ S` (§4.5; `headers.rs` missing). -/
def preconditionPasses (since mtime : Nat) : Bool := decide (mtime ≤ since)

/-- Modelled from the spec: `IfModifiedSince::is_modified` — modified iff
`file_mtime > S` (§4.5; `headers.rs` missing). -/
def isModified (since mtime : Nat) : Bool := decide (since < mtime)

/-! ## Pipeline outcome (`src/open_file.rs`) -/

/-- `FileRequestExtent`. -/
inductive Extent where
  | full (file : MFile) (meta : Meta)
  | head (meta : Meta)
deriving DecidableEq, Repr

-- Decidable equality for `Except` results (needed to compare outcomes).
deriving instance DecidableEq for Except

/-- `FileOpened`. -/
structure FileOpened where
  extent : Extent
  chunkSize : Nat
  mimeHeaderValue : String
  maybeEncoding : Option Encoding
  maybeRange : Option (Except Unit (List (Nat × Nat)))
  lastModified : Option Nat
deriving DecidableEq, Repr

/-- `OpenFileOutput`. -/
inductive OpenFileOutput where
  | fileOpened (o : FileOpened)
  | redirect (location : String)
  | fileNotFound
  | preconditionFailed
  | notModified
deriving DecidableEq, Repr

/-- The `If-Unmodified-Since` test of `check_modified_headers`: the header is
present and the precondition does not pass (an unknown mtime fails it). -/
def iusFails (modified : Option Nat) (ius : Option Nat) : Bool :=
  match ius with
  | some since => !((modified.map (fun t => preconditionPasses since t)).getD false)
  | none => false

/-- The `If-Modified-Since` test of `check_modified_headers`: the header is
present and the resource is unmodified (an unknown mtime counts as modified). -/
def imsUnmodified (modified : Option Nat) (ims : Option Nat) : Bool :=
  match ims with
  | some since => (modified.map (fun t => !(isModified since t))).getD false
  | none => false

/-- `check_modified_headers` (`src/open_file.rs`): `If-Unmodified-Since`
is evaluated first and short-circuits with `PreconditionFailed`; then
`If-Modified-Since` may yield `NotModified`. -/
def checkModifiedHeaders (modified : Option Nat) (ius ims : Option Nat) :
    Option OpenFileOutput :=
  if iusFails modified ius then some OpenFileOutput.preconditionFailed
  else if imsUnmodified modified ims then some OpenFileOutput.notModified
  else none

/-! ## Encoding fallback (`preferred_encoding` and the `_with_fallback` loops,
`src/open_file.rs`) -/

/-- `preferred_encoding` (`src/open_file.rs`): pick the preferred negotiated
encoding and, when it has a file extension, append that suffix to the path's
extension. Returns the updated path together with the chosen encoding. -/
def preferredEncodingStep (path : RPath) (negotiatedEncoding : List (Encoding × Nat)) :
    RPath × Option Encoding :=
  let preferred := Encoding.preferredEncoding negotiatedEncoding
  match preferred.bind Encoding.toFileExtension with
  | some fileExtension =>
    let newExtension :=
      match rExtension path with
      | some extension => extension ++ fileExtension
      | none => fileExtension
    (rSetExtension path newExtension, preferred)
  | none => (path, preferred)

/-- The shared shape of `open_file_with_fallback` / `file_metadata_with_fallback`:
try the preferred candidate; on `NotFound` for a compressed candidate, reset the
path's extension, drop that encoding from the negotiated list and retry; return
any other error.  The loop in the source is unbounded; here it carries fuel, and
the C7 theorem shows fuel `negotiated.length + 1` never runs out. -/
def withFallbackLoopFuel {α : Type} (attempt : RPath → Except IOErr α) :
    Nat → RPath → List (Encoding × Nat) → Option (Except IOErr (α × Option Encoding))
  | 0, _, _ => none
  | fuel + 1, path, neg =>
    let step := preferredEncodingStep path neg
    match attempt step.1, step.2 with
    | Except.ok a, e => some (Except.ok (a, e))
    | Except.error err, some e =>
      if err.kind = ErrorKind.notFound then
        withFallbackLoopFuel attempt fuel (rSetExtension step.1 "")
          (neg.filter (fun pr => decide (pr.1 ≠ e)))
      else some (Except.error err)
    | Except.error err, none => some (Except.error err)

/-- `open_file_with_fallback` (`src/open_file.rs`). -/
def openFileWithFallback (fs : FS) (path : RPath) (negotiatedEncoding : List (Encoding × Nat)) :
    Except IOErr (MFile × Option Encoding) :=
  (withFallbackLoopFuel fs.openFn (negotiatedEncoding.length + 1) path negotiatedEncoding).getD
    (Except.error nfErr)

/-- `file_metadata_with_fallback` (`src/open_file.rs`). -/
def fileMetadataWithFallback (fs : FS) (path : RPath) (negotiatedEncoding : List (Encoding × Nat)) :
    Except IOErr (Meta × Option Encoding) :=
  (withFallbackLoopFuel fs.metadataFn (negotiatedEncoding.length + 1) path negotiatedEncoding).getD
    (Except.error nfErr)

/-! ## Directory handling and the open-file pipeline (`src/open_file.rs`) -/

/-- `maybe_redirect_or_append_path`: the directory-variant preamble.  Returns
the early output (if any) together with the possibly-extended candidate path.
An `is_dir` error is absorbed by `unwrap_or(false)`. -/
def maybeRedirectOrAppendPath (fs : FS) (pathToFile : RPath) (uri : Uri)
    (appendIndexHtmlOnDirectories : Bool) : Option OpenFileOutput × RPath :=
  if strEndsWithSlash (uriPath uri) = false then
    if exceptGetD (fs.isDirFn pathToFile) false then
      (some (OpenFileOutput.redirect (uriToString (appendSlashOnPath uri))), pathToFile)
    else (none, pathToFile)
  else if exceptGetD (fs.isDirFn pathToFile) false then
    if appendIndexHtmlOnDirectories then (none, rPush pathToFile "index.html")
    else (some OpenFileOutput.fileNotFound, pathToFile)
  else (none, pathToFile)

/-- `try_parse_range` (`src/open_file.rs`), with the external parser from `Ext`. -/
def tryParseRange (ext : Externals) (maybeRangeRef : Option String) (fileSize : Nat) :
    Option (Except Unit (List (Nat × Nat))) :=
  maybeRangeRef.map (fun h => ext.parseRange h fileSize)

/-- The serve variant (`src/serve_dir.rs`). -/
inductive ServeVariant where
  | directory (appendIndexHtmlOnDirectories : Bool)
  | singleFile (mime : String)
deriving DecidableEq, Repr

/-- The tail of `open_file` after the variant-specific preamble: `HEAD` takes
the metadata-with-fallback path, everything else opens the file, reads its
metadata, evaluates the conditional headers, parses the `Range` header and, for
exactly one parsed range, seeks the file to the range start. -/
def openFileAfterDirStep (fs : FS) (pathToFile : RPath) (mime : String) (req : Req)
    (ext : Externals) (negotiatedEncodings : List (Encoding × Nat)) (rangeHeader : Option String)
    (bufChunkSize : Nat) : Except IOErr OpenFileOutput :=
  if req.method = Method.head then
    match fileMetadataWithFallback fs pathToFile negotiatedEncodings with
    | Except.error e => Except.error e
    | Except.ok (meta, maybeEncoding) =>
      let lastModified := meta.modified
      match checkModifiedHeaders lastModified req.ifUnmodifiedSince req.ifModifiedSince with
      | some output => Except.ok output
      | none =>
        let maybeRange := tryParseRange ext rangeHeader meta.len
        Except.ok (OpenFileOutput.fileOpened
          ⟨Extent.head meta, bufChunkSize, mime, maybeEncoding, maybeRange, lastModified⟩)
  else
    match openFileWithFallback fs pathToFile negotiatedEncodings with
    | Except.error e => Except.error e
    | Except.ok (file, maybeEncoding) =>
      let meta := file.meta
      let lastModified := meta.modified
      match checkModifiedHeaders lastModified req.ifUnmodifiedSince req.ifModifiedSince with
      | some output => Except.ok output
      | none =>
        let maybeRange := tryParseRange ext rangeHeader meta.len
        let file :=
          match maybeRange with
          | some (Except.ok [r]) => { file with index := r.1 }
          | _ => file
        Except.ok (OpenFileOutput.fileOpened
          ⟨Extent.full file meta, bufChunkSize, mime, maybeEncoding, maybeRange, lastModified⟩)

/-- `open_file` (`src/open_file.rs`): the `Directory` variant first runs
`maybe_redirect_or_append_path` and guesses the MIME from the final candidate
path; the `SingleFile` variant uses its configured MIME. -/
def openFile (fs : FS) (variant : ServeVariant) (pathToFile : RPath) (req : Req)
    (ext : Externals) (negotiatedEncodings : List (Encoding × Nat)) (rangeHeader : Option String)
    (bufChunkSize : Nat) : Except IOErr OpenFileOutput :=
  match variant with
  | ServeVariant.directory appendIndexHtmlOnDirectories =>
    match maybeRedirectOrAppendPath fs pathToFile req.uri appendIndexHtmlOnDirectories with
    | (some output, _) => Except.ok output
    | (none, path) =>
      let mime := (ext.mimeGuess (rPathToString path)).getD "application/octet-stream"
      openFileAfterDirStep fs path mime req ext negotiatedEncodings rangeHeader bufChunkSize
  | ServeVariant.singleFile mime =>
    openFileAfterDirStep fs pathToFile mime req ext negotiatedEncodings rangeHeader bufChunkSize

/-! ## Responses and the response builder (`src/serve_dir.rs`) -/

/-- A response body: empty, a literal text, or the byte stream an
`AsyncReadBody` yields (chunk boundaries abstracted away). -/
inductive RespBody where
  | empty
  | text (s : String)
  | stream (bytes : List Nat)
deriving DecidableEq, Repr

/-- An HTTP response: status, headers in insertion order, body. -/
structure Response where
  status : Nat
  headers : List (String × String)
  body : RespBody
deriving DecidableEq, Repr

/-- First value bound to a header name (header lookup). -/
def hdrLookup (k : String) : List (String × String) → Option String
  | [] => none
  | (k', v) :: rest => if k = k' then some v else hdrLookup k rest

/-- The status of a handler result (`0` for a transport-level error). -/
def statusOf (r : Except IOErr Response) : Nat :=
  match r with
  | Except.ok resp => resp.status
  | Except.error _ => 0

/-- The size a `FileOpened` reports (its metadata length). -/
def Extent.size : Extent → Nat
  | Extent.full _ m => m.len
  | Extent.head m => m.len

/-- The common headers `build_response` always sets: `Content-Type`,
`Accept-Ranges`, then optionally `Content-Encoding` and `Last-Modified`. -/
def commonHeaders (mime : String) (enc : Option Encoding) (lm : Option Nat) :
    List (String × String) :=
  [("content-type", mime), ("accept-ranges", "bytes")]
    ++ (match enc with
        | some e => [("content-encoding", e.intoHeaderValue)]
        | none => [])
    ++ (match lm with
        | some t => [("last-modified", toString t)]
        | none => [])

/-- `build_response` (`src/serve_dir.rs`): the range-case analysis described in
the spec (§4.9), with `206` bodies limited to `end - start + 1` bytes read from
the (already seeked) file. -/
def buildResponse (output : FileOpened) : Response :=
  let maybeFile : Option MFile :=
    match output.extent with
    | Extent.full f _ => some f
    | Extent.head _ => none
  let size := output.extent.size
  let common := commonHeaders output.mimeHeaderValue output.maybeEncoding output.lastModified
  match output.maybeRange with
  | some (Except.ok ranges) =>
    match ranges.head? with
    | some range =>
      if 1 < ranges.length then
        ⟨416, common ++ [("content-range", "bytes */" ++ toString size)],
          RespBody.text "Cannot serve multipart range requests"⟩
      else
        let body :=
          match maybeFile with
          | some f =>
            RespBody.stream ((f.contents.drop f.index).take (range.2 - range.1 + 1))
          | none => RespBody.empty
        ⟨206,
          common
            ++ [("content-range",
                  "bytes " ++ toString range.1 ++ "-" ++ toString range.2 ++ "/" ++ toString size),
                ("content-length", toString (range.2 - range.1 + 1))],
          body⟩
    | none =>
      ⟨416, common ++ [("content-range", "bytes */" ++ toString size)],
        RespBody.text "No range found after parsing range header, please file an issue"⟩
  | some (Except.error _) =>
    ⟨416, common ++ [("content-range", "bytes */" ++ toString size)], RespBody.empty⟩
  | none =>
    let body :=
      match maybeFile with
      | some f => RespBody.stream (f.contents.drop f.index)
      | none => RespBody.empty
    ⟨200, common ++ [("content-length", toString size)], body⟩

/-! ## The `ServeDir` service (`src/serve_dir.rs`) -/

/-- The handler configuration (`ServeDir`'s fields; the precompressed policy
only influences the negotiated-encoding list carried by the request). -/
structure Config where
  bufChunkSize : Nat
  variant : ServeVariant
  callFallbackOnMethodNotAllowed : Bool

/-- `not_found()`: an empty `404`. -/
def notFoundResponse : Response := ⟨404, [], RespBody.empty⟩

/-- The `405 Method Not Allowed` response with `Allow: GET,HEAD`. -/
def methodNotAllowedResponse : Response := ⟨405, [("allow", "GET,HEAD")], RespBody.empty⟩

/-- The method gate at the top of `ServeDir::call`: for a method that is
neither GET nor HEAD, either the fallback's response (when the flag is set and
a fallback exists), or `405`; when the flag is set but no fallback exists the
code falls through (`none`) to normal processing.  The fallback is modelled as
the response it would produce for this request. -/
def methodGate (cfg : Config) (fallback : Option Response) (m : Method) : Option Response :=
  if m ≠ Method.get ∧ m ≠ Method.head then
    if cfg.callFallbackOnMethodNotAllowed then fallback
    else some methodNotAllowedResponse
  else none

/-- How `ServeDir::call` renders a pipeline outcome (`FileNotFound` dispatches
to the fallback when present). -/
def renderOutput (fallback : Option Response) : OpenFileOutput → Response
  | OpenFileOutput.fileOpened o => buildResponse o
  | OpenFileOutput.redirect location => ⟨307, [("location", location)], RespBody.empty⟩
  | OpenFileOutput.fileNotFound => fallback.getD notFoundResponse
  | OpenFileOutput.preconditionFailed => ⟨412, [], RespBody.empty⟩
  | OpenFileOutput.notModified => ⟨304, [], RespBody.empty⟩

/-- The body of `ServeDir::call` after the method gate: decode the path
(strip leading `/`, percent-decode; a decode failure is fallback-or-404), run
`open_file`, render the outcome; `NotFound`/`PermissionDenied` errors become
fallback-or-404, other errors surface. -/
def serveDirInner (cfg : Config) (fs : FS) (ext : Externals) (fallback : Option Response)
    (req : Req) : Except IOErr Response :=
  match ext.percentDecode (strDropLeadingSlashes (uriPath req.uri)) with
  | none => Except.ok (fallback.getD notFoundResponse)
  | some decoded =>
    let pathToFile := RPath.ofString decoded
    match openFile fs cfg.variant pathToFile req ext req.negotiated req.rangeHeader
        cfg.bufChunkSize with
    | Except.ok output => Except.ok (renderOutput fallback output)
    | Except.error e =>
      if e.kind = ErrorKind.notFound ∨ e.kind = ErrorKind.permissionDenied then
        Except.ok (fallback.getD notFoundResponse)
      else Except.error e

/-- `ServeDir::call`: the method gate, then the path/pipeline body. -/
def serveDirCall (cfg : Config) (fs : FS) (ext : Externals) (fallback : Option Response)
    (req : Req) : Except IOErr Response :=
  match methodGate cfg fallback req.method with
  | some res => Except.ok res
  | none => serveDirInner cfg fs ext fallback req

/-! ## Concrete fixtures used by witnesses and counterexamples -/

/-- A two-byte file (used by the single-file scenarios). -/
def fileC1 : MFile := ⟨[104, 105], none, 0⟩

/-- A host filesystem holding exactly `a.txt`. -/
def innerC1 : FS where
  openFn p :=
    if rcomponents p = [Component.normal "a.txt"] then Except.ok fileC1 else Except.error nfErr
  isDirFn _ := Except.ok false
  metadataFn p :=
    if rcomponents p = [Component.normal "a.txt"] then Except.ok fileC1.meta
    else Except.error nfErr

/-- Identity external oracles for the single-file scenarios. -/
def extC1 : Externals := ⟨fun s => some s, fun _ => none, fun _ _ => Except.ok []⟩

/-- A GET request for `/a.txt`. -/
def reqC1a : Req := ⟨Method.get, ⟨none, none, some ("/a.txt", none)⟩, none, none, none, []⟩

/-- A GET request for `/b.txt`. -/
def reqC1b : Req := ⟨Method.get, ⟨none, none, some ("/b.txt", none)⟩, none, none, none, []⟩

/-- A host filesystem holding exactly `a.txt.gz` (a precompressed variant). -/
def innerC1gz : FS where
  openFn p :=
    if rcomponents p = [Component.normal "a.txt.gz"] then Except.ok fileC1
    else Except.error nfErr
  isDirFn _ := Except.ok false
  metadataFn p :=
    if rcomponents p = [Component.normal "a.txt.gz"] then Except.ok fileC1.meta
    else Except.error nfErr

/-- A GET request for `/a.txt` with gzip negotiated at q=1000. -/
def reqC1gz : Req :=
  ⟨Method.get, ⟨none, none, some ("/a.txt", none)⟩, none, none, none, [(Encoding.gzip, 1000)]⟩

/-- A filesystem holding exactly `a.txt` for the method-gate scenario. -/
def fsC2 : FS where
  openFn p :=
    if rcomponents p = [Component.normal "a.txt"] then Except.ok fileC1 else Except.error nfErr
  isDirFn _ := Except.ok false
  metadataFn _ := Except.error nfErr

/-- Identity external oracles for the method-gate scenario. -/
def extC2 : Externals := ⟨fun s => some s, fun _ => none, fun _ _ => Except.ok []⟩

/-- A POST request for `/a.txt`. -/
def reqC2post : Req :=
  ⟨Method.other "POST", ⟨none, none, some ("/a.txt", none)⟩, none, none, none, []⟩

/-- A host filesystem that would serve anything (to show validation alone
blocks traversal). -/
def hostC3 : FS where
  openFn _ := Except.ok fileC1
  isDirFn _ := Except.ok false
  metadataFn _ := Except.ok fileC1.meta

/-- Identity external oracles for the traversal scenario. -/
def extC3 : Externals := ⟨fun s => some s, fun _ => none, fun _ _ => Except.ok []⟩

/-- A GET request for `/../etc/passwd`. -/
def reqC3 : Req :=
  ⟨Method.get, ⟨none, none, some ("/../etc/passwd", none)⟩, none, none, none, []⟩

/-- A ten-byte file with a known mtime, for the range scenario. -/
def fileC4 : MFile := ⟨[0, 1, 2, 3, 4, 5, 6, 7, 8, 9], some 7, 0⟩

/-- A filesystem holding exactly `f.bin`, for the range scenario. -/
def fsC4 : FS where
  openFn p :=
    if rcomponents p = [Component.normal "f.bin"] then Except.ok fileC4 else Except.error nfErr
  isDirFn _ := Except.ok false
  metadataFn _ := Except.error nfErr

/-- External oracles whose range parser yields the single range `2..=4`. -/
def extC4 : Externals := ⟨fun s => some s, fun _ => none, fun _ _ => Except.ok [(2, 4)]⟩

/-- A GET request for `/f.bin` with `Range: bytes=2-4`. -/
def reqC4 : Req :=
  ⟨Method.get, ⟨none, none, some ("/f.bin", none)⟩, none, none, some "bytes=2-4", []⟩

/-- The `FileOpened` value produced for a single satisfiable range `S..=E`. -/
def rangeFileOpened (file : MFile) (S E chunk : Nat) (mime : String)
    (enc : Option Encoding) : FileOpened :=
  ⟨Extent.full { file with index := S } file.meta, chunk, mime, enc,
    some (Except.ok [(S, E)]), file.modified⟩

/-- A filesystem failing every operation with `NotFound`. -/
def fsC7 : FS where
  openFn _ := Except.error nfErr
  isDirFn _ := Except.error nfErr
  metadataFn _ := Except.error nfErr

/-- A `FileOpened` carrying two parsed ranges (multipart). -/
def oC8 : FileOpened :=
  ⟨Extent.full fileC4 fileC4.meta, 65536, "app/bin", none,
    some (Except.ok [(0, 1), (3, 4)]), none⟩

/-- A filesystem whose `subdir` is a directory and `subdir/index.html` a file. -/
def fsC9 : FS where
  openFn p :=
    if rcomponents p = [Component.normal "subdir", Component.normal "index.html"] then
      Except.ok fileC1
    else Except.error nfErr
  isDirFn p := Except.ok (rcomponents p = [Component.normal "subdir"])
  metadataFn _ := Except.error nfErr

/-- Identity external oracles for the redirect scenario. -/
def extC9 : Externals := ⟨fun s => some s, fun _ => none, fun _ _ => Except.ok []⟩

/-- A GET request for `/subdir?x=1` (no trailing slash, with a query). -/
def reqC9 : Req :=
  ⟨Method.get, ⟨none, none, some ("/subdir", some "x=1")⟩, none, none, none, []⟩

/-- A filesystem whose `is_dir` always fails with a permission error. -/
def fsC10 : FS where
  openFn _ := Except.ok fileC1
  isDirFn _ := Except.error ⟨ErrorKind.permissionDenied⟩
  metadataFn _ := Except.error nfErr

/-! ## Helper lemmas: encoding selection and the fallback loop -/

lemma pickPreferred_mem {l : List (Encoding × Nat)} {p : Encoding × Nat}
    (h : pickPreferred l = some p) : p ∈ l := by
  induction l with
  | nil => simp [pickPreferred] at h
  | cons a rest ih =>
    simp only [pickPreferred] at h
    cases hr : pickPreferred rest with
    | none => rw [hr] at h; simp at h; simp [h]
    | some b =>
      rw [hr] at h
      by_cases hb : betterPick a b = true
      · simp [hb] at h; simp [h]
      · simp [hb] at h; exact List.mem_cons_of_mem _ (ih (h ▸ hr))

lemma preferredEncoding_mem {neg : List (Encoding × Nat)} {e : Encoding}
    (h : Encoding.preferredEncoding neg = some e) : ∃ q, (e, q) ∈ neg := by
  unfold Encoding.preferredEncoding at h
  cases hp : pickPreferred (neg.filter
      (fun pr => decide (0 < pr.2) && decide (pr.1 ≠ Encoding.identity))) with
  | none => rw [hp] at h; simp at h
  | some p =>
    rw [hp] at h
    simp at h
    have hm := pickPreferred_mem hp
    rw [List.mem_filter] at hm
    exact ⟨p.2, by rw [← h]; exact hm.1⟩

lemma filter_ne_length_lt {neg : List (Encoding × Nat)} {e : Encoding} {q : Nat}
    (h : (e, q) ∈ neg) :
    (neg.filter (fun pr => decide (pr.1 ≠ e))).length < neg.length :=
  List.length_filter_lt_length_iff_exists.mpr ⟨(e, q), h, by simp⟩

lemma preferredEncodingStep_snd (path : RPath) (neg : List (Encoding × Nat)) :
    (preferredEncodingStep path neg).2 = Encoding.preferredEncoding neg := by
  cases h : (Encoding.preferredEncoding neg).bind Encoding.toFileExtension <;>
    simp [preferredEncodingStep, h]

lemma preferredEncodingStep_fst_cases (path : RPath) (neg : List (Encoding × Nat)) :
    (preferredEncodingStep path neg).1 = path ∨
      ∃ x, (preferredEncodingStep path neg).1 = rSetExtension path x := by
  cases h : (Encoding.preferredEncoding neg).bind Encoding.toFileExtension with
  | none => left; simp [preferredEncodingStep, h]
  | some fileExtension =>
    right
    refine ⟨(match rExtension path with
      | some extension => extension ++ fileExtension
      | none => fileExtension), ?_⟩
    simp [preferredEncodingStep, h]

lemma withFallbackLoopFuel_isSome {α : Type} (attempt : RPath → Except IOErr α) :
    ∀ (fuel : Nat) (neg : List (Encoding × Nat)) (path : RPath), neg.length < fuel →
      (withFallbackLoopFuel attempt fuel path neg).isSome = true := by
  intro fuel
  induction fuel with
  | zero => intro neg path h; exact absurd h (Nat.not_lt_zero _)
  | succ fuel ih =>
    intro neg path h
    simp only [withFallbackLoopFuel]
    cases ha : attempt (preferredEncodingStep path neg).1 with
    | ok a => simp
    | error err =>
      cases he : (preferredEncodingStep path neg).2 with
      | none => simp
      | some e =>
        by_cases hk : err.kind = ErrorKind.notFound
        · simp only [hk, if_pos rfl]
          apply ih
          have hpe : Encoding.preferredEncoding neg = some e :=
            (preferredEncodingStep_snd path neg) ▸ he
          obtain ⟨q, hq⟩ := preferredEncoding_mem hpe
          exact Nat.lt_of_lt_of_le (filter_ne_length_lt hq) (Nat.le_of_lt_succ h)
        · simp [hk]

lemma withFallbackLoopFuel_inv_error {α : Type} (attempt : RPath → Except IOErr α)
    (Inv : RPath → Prop)
    (hpres : ∀ p x, Inv p → Inv (rSetExtension p x))
    (hfail : ∀ p, Inv p → attempt p = Except.error nfErr) :
    ∀ (fuel : Nat) (neg : List (Encoding × Nat)) (path : RPath), neg.length < fuel →
      Inv path →
      withFallbackLoopFuel attempt fuel path neg = some (Except.error nfErr) := by
  intro fuel
  induction fuel with
  | zero => intro neg path h _; exact absurd h (Nat.not_lt_zero _)
  | succ fuel ih =>
    intro neg path h hinv
    have hstep : Inv (preferredEncodingStep path neg).1 := by
      rcases preferredEncodingStep_fst_cases path neg with hc | ⟨x, hc⟩
      · rw [hc]; exact hinv
      · rw [hc]; exact hpres _ _ hinv
    simp only [withFallbackLoopFuel]
    rw [hfail _ hstep]
    cases he : (preferredEncodingStep path neg).2 with
    | none => simp
    | some e =>
      have : nfErr.kind = ErrorKind.notFound := rfl
      simp only [this, if_pos rfl]
      apply ih
      · have hpe : Encoding.preferredEncoding neg = some e :=
          (preferredEncodingStep_snd path neg) ▸ he
        obtain ⟨q, hq⟩ := preferredEncoding_mem hpe
        exact Nat.lt_of_lt_of_le (filter_ne_length_lt hq) (Nat.le_of_lt_succ h)
      · exact hpres _ _ hstep

lemma withFallbackLoopFuel_pe_none {α : Type} (attempt : RPath → Except IOErr α)
    (path : RPath) (neg : List (Encoding × Nat))
    (h : Encoding.preferredEncoding neg = none) :
    withFallbackLoopFuel attempt (neg.length + 1) path neg =
      some ((attempt path).map (fun a => (a, none))) := by
  have h1 : (preferredEncodingStep path neg).1 = path := by
    simp [preferredEncodingStep, h]
  have h2 : (preferredEncodingStep path neg).2 = none :=
    (preferredEncodingStep_snd path neg).trans h
  simp only [withFallbackLoopFuel, h1, h2]
  cases attempt path <;> simp [Except.map]

lemma withFallbackLoopFuel_err_propagate {α : Type} (attempt : RPath → Except IOErr α)
    (path : RPath) (neg : List (Encoding × Nat)) (e : IOErr)
    (ha : attempt (preferredEncodingStep path neg).1 = Except.error e)
    (hk : e.kind ≠ ErrorKind.notFound) :
    withFallbackLoopFuel attempt (neg.length + 1) path neg = some (Except.error e) := by
  simp only [withFallbackLoopFuel, ha]
  cases (preferredEncodingStep path neg).2 with
  | none => simp
  | some enc => simp [hk]

lemma openFileWithFallback_inv_error {fs : FS} (Inv : RPath → Prop)
    (hpres : ∀ p x, Inv p → Inv (rSetExtension p x))
    (hfail : ∀ p, Inv p → fs.openFn p = Except.error nfErr)
    {path : RPath} (neg : List (Encoding × Nat)) (hinv : Inv path) :
    openFileWithFallback fs path neg = Except.error nfErr := by
  unfold openFileWithFallback
  rw [withFallbackLoopFuel_inv_error fs.openFn Inv hpres hfail _ _ _ (Nat.lt_succ_self _) hinv]
  rfl

lemma fileMetadataWithFallback_inv_error {fs : FS} (Inv : RPath → Prop)
    (hpres : ∀ p x, Inv p → Inv (rSetExtension p x))
    (hfail : ∀ p, Inv p → fs.metadataFn p = Except.error nfErr)
    {path : RPath} (neg : List (Encoding × Nat)) (hinv : Inv path) :
    fileMetadataWithFallback fs path neg = Except.error nfErr := by
  unfold fileMetadataWithFallback
  rw [withFallbackLoopFuel_inv_error fs.metadataFn Inv hpres hfail _ _ _ (Nat.lt_succ_self _) hinv]
  rfl

/-! ## Helper lemmas: path components and traversal rejection -/

lemma classifyRest_parentDir {s : String} :
    classifyRest s = some Component.parentDir ↔ s = ".." := by
  unfold classifyRest
  split_ifs with h1 h2 h3 <;> simp_all

lemma parentDir_mem_rcomponents {p : RPath} :
    Component.parentDir ∈ rcomponents p ↔ ".." ∈ p := by
  cases p with
  | nil => simp [rcomponents]
  | cons first rest =>
    simp only [rcomponents, List.mem_append, List.mem_filterMap, List.mem_cons,
      classifyRest_parentDir]
    split_ifs with h1 h2 h3 h4 <;> simp_all
    exact fun h => absurd h.symm h4

lemma rcomponents_append_ignored {xs tr : RPath} (hxs : xs ≠ []) (hxs2 : xs ≠ [""])
    (htr : ∀ s ∈ tr, isIgnoredSeg s = true) :
    rcomponents (xs ++ tr) = rcomponents xs := by
  cases xs with
  | nil => exact absurd rfl hxs
  | cons f r =>
    have htr' : tr.filterMap classifyRest = [] := by
      rw [List.filterMap_eq_nil_iff]
      intro a ha
      have := htr a ha
      unfold isIgnoredSeg at this
      unfold classifyRest
      rcases Bool.or_eq_true_iff.mp this with h | h
      · simp [eq_of_beq h]
      · have : a = "." := eq_of_beq h
        simp [this]
    simp only [List.cons_append, rcomponents, List.filterMap_append, htr', List.append_nil]
    rcases r with _ | ⟨y, ys⟩
    · rcases tr with _ | ⟨t, ts⟩
      · rfl
      · by_cases h1 : f = ""
        · exact absurd (by rw [h1]) hxs2
        · simp [h1]
    · rfl

lemma filterMap_classifyRest_getLast {l : List String} (h : l.getLast? = some "..") :
    (l.filterMap classifyRest).getLast? = some Component.parentDir := by
  induction l with
  | nil => simp at h
  | cons x xs ih =>
    cases xs with
    | nil =>
      simp at h
      subst h
      simp [classifyRest]
    | cons y ys =>
      have h' : (y :: ys).getLast? = some ".." := by rwa [List.getLast?_cons_cons] at h
      have ihh := ih h'
      cases hx : classifyRest x with
      | none => simpa [List.filterMap_cons, hx] using ihh
      | some c =>
        rw [List.filterMap_cons, hx]
        show ([c] ++ (y :: ys).filterMap classifyRest).getLast? = some Component.parentDir
        rw [List.getLast?_append, ihh]
        rfl

lemma rcomponents_getLast_parentDir {xs : RPath} (h : xs.getLast? = some "..") :
    (rcomponents xs).getLast? = some Component.parentDir := by
  cases xs with
  | nil => simp at h
  | cons f r =>
    cases r with
    | nil =>
      simp at h
      subst h
      rfl
    | cons y ys =>
      have h' : (y :: ys).getLast? = some ".." := by rwa [List.getLast?_cons_cons] at h
      have hfm := filterMap_classifyRest_getLast h'
      simp only [rcomponents]
      rw [List.getLast?_append, hfm]
      rfl

lemma rDropTrailingIgnored_decomp (p : RPath) :
    ∃ tr, p = rDropTrailingIgnored p ++ tr ∧ ∀ s ∈ tr, isIgnoredSeg s = true := by
  refine ⟨(p.reverse.takeWhile isIgnoredSeg).reverse, ?_, ?_⟩
  · unfold rDropTrailingIgnored
    conv_lhs => rw [← List.reverse_reverse p,
      ← List.takeWhile_append_dropWhile isIgnoredSeg p.reverse]
    rw [List.reverse_append]
  · intro s hs
    rw [List.mem_reverse] at hs
    exact List.mem_takeWhile_imp hs

lemma parentDir_rSetExtension {p : RPath} (x : String)
    (h : Component.parentDir ∈ rcomponents p) :
    Component.parentDir ∈ rcomponents (rSetExtension p x) := by
  unfold rSetExtension
  cases hf : rFileName p with
  | none => exact h
  | some name =>
    simp only []
    unfold rSetFileName
    rw [parentDir_mem_rcomponents]
    have hdd : ".." ∈ p := parentDir_mem_rcomponents.mp h
    obtain ⟨tr, hp, htr⟩ := rDropTrailingIgnored_decomp p
    have hmem : ".." ∈ rDropTrailingIgnored p := by
      rw [hp] at hdd
      rcases List.mem_append.mp hdd with h1 | h1
      · exact h1
      · exact absurd (htr _ h1) (by decide)
    have hne : rDropTrailingIgnored p ≠ [] := by
      intro hnil; rw [hnil] at hmem; simp at hmem
    have hlast : (rDropTrailingIgnored p).getLast? ≠ some ".." := by
      intro hl
      have h2 := rcomponents_getLast_parentDir hl
      have hne2 : rDropTrailingIgnored p ≠ [""] := by
        intro h1; rw [h1] at hl; simp at hl
      have hcomp : rcomponents p = rcomponents (rDropTrailingIgnored p) := by
        conv_lhs => rw [hp]
        exact rcomponents_append_ignored hne hne2 htr
      unfold rFileName at hf
      rw [hcomp, h2] at hf
      simp at hf
    have hdl : ".." ∈ (rDropTrailingIgnored p).dropLast := by
      have hdec := List.dropLast_append_getLast hne
      rw [← hdec] at hmem
      rcases List.mem_append.mp hmem with h1 | h1
      · exact h1
      · exfalso
        simp at h1
        apply hlast
        rw [List.getLast?_eq_getLast _ hne, ← h1]
    exact List.mem_append.mpr (Or.inl hdl)

lemma buildAndValidatePathAux_parentDir {comps : List Component} (acc : RPath)
    (h : Component.parentDir ∈ comps) : buildAndValidatePathAux acc comps = none := by
  induction comps generalizing acc with
  | nil => simp at h
  | cons c rest ih =>
    rcases List.mem_cons.mp h with hc | hc
    · rw [← hc]; rfl
    · cases c with
      | normal comp =>
        unfold buildAndValidatePathAux
        split_ifs with hall
        · exact ih _ hc
        · rfl
      | curDir =>
        unfold buildAndValidatePathAux
        exact ih _ hc
      | rootDir => rfl
      | parentDir => rfl

lemma buildAndValidatePath_parentDir {base : RPath} {p : RPath}
    (h : Component.parentDir ∈ rcomponents p) : buildAndValidatePath base p = none :=
  buildAndValidatePathAux_parentDir base h

lemma buildAndValidatePathAux_sound {comps : List Component} :
    ∀ {acc q : RPath}, buildAndValidatePathAux acc comps = some q →
      ∃ extra, q = acc ++ extra ∧
        ∀ s ∈ extra, (rcomponents [s]).all isNormalComp = true := by
  induction comps with
  | nil =>
    intro acc q h
    simp [buildAndValidatePathAux] at h
    exact ⟨[], by simp [h], by simp⟩
  | cons c rest ih =>
    intro acc q h
    cases c with
    | normal comp =>
      unfold buildAndValidatePathAux at h
      split_ifs at h with hall
      · obtain ⟨extra, hq, hx⟩ := ih h
        refine ⟨comp :: extra, ?_, ?_⟩
        · rw [hq]; simp
        · intro s hs
          rcases List.mem_cons.mp hs with h1 | h1
          · rw [h1]; exact hall
          · exact hx _ h1
    | curDir =>
      unfold buildAndValidatePathAux at h
      exact ih h
    | rootDir => simp [buildAndValidatePathAux] at h
    | parentDir => simp [buildAndValidatePathAux] at h

lemma diskFS_openFn_parentDir {base : RPath} (host : FS) {p : RPath}
    (h : Component.parentDir ∈ rcomponents p) :
    (diskFS base host).openFn p = Except.error nfErr := by
  simp [diskFS, buildAndValidatePath_parentDir h]

lemma diskFS_isDirFn_parentDir {base : RPath} (host : FS) {p : RPath}
    (h : Component.parentDir ∈ rcomponents p) :
    (diskFS base host).isDirFn p = Except.error nfErr := by
  simp [diskFS, buildAndValidatePath_parentDir h]

lemma diskFS_metadataFn_parentDir {base : RPath} (host : FS) {p : RPath}
    (h : Component.parentDir ∈ rcomponents p) :
    (diskFS base host).metadataFn p = Except.error nfErr := by
  simp [diskFS, buildAndValidatePath_parentDir h]

/-! ## Helper lemmas: the handler skeleton -/

lemma maybeRedirect_isDir_error {fs : FS} {p : RPath} {uri : Uri} {append : Bool} {e : IOErr}
    (h : fs.isDirFn p = Except.error e) :
    maybeRedirectOrAppendPath fs p uri append = (none, p) := by
  unfold maybeRedirectOrAppendPath
  rw [h]
  simp [exceptGetD]

lemma methodGate_none_of_get_or_head {cfg : Config} {fallback : Option Response} {m : Method}
    (h : m = Method.get ∨ m = Method.head) : methodGate cfg fallback m = none := by
  unfold methodGate
  rcases h with h | h <;> rw [h] <;> simp

lemma serveDirCall_of_openFile {cfg : Config} {fs : FS} {ext : Externals}
    {fallback : Option Response} {req : Req} {d : String} {output : OpenFileOutput}
    (hm : req.method = Method.get ∨ req.method = Method.head)
    (hdec : ext.percentDecode (strDropLeadingSlashes (uriPath req.uri)) = some d)
    (hopen : openFile fs cfg.variant (RPath.ofString d) req ext req.negotiated req.rangeHeader
      cfg.bufChunkSize = Except.ok output) :
    serveDirCall cfg fs ext fallback req = Except.ok (renderOutput fallback output) := by
  unfold serveDirCall
  rw [methodGate_none_of_get_or_head hm]
  unfold serveDirInner
  rw [hdec]
  simp only [hopen]

lemma serveDirCall_of_openFile_error {cfg : Config} {fs : FS} {ext : Externals}
    {fallback : Option Response} {req : Req} {d : String} {e : IOErr}
    (hm : req.method = Method.get ∨ req.method = Method.head)
    (hdec : ext.percentDecode (strDropLeadingSlashes (uriPath req.uri)) = some d)
    (hopen : openFile fs cfg.variant (RPath.ofString d) req ext req.negotiated req.rangeHeader
      cfg.bufChunkSize = Except.error e)
    (hk : e.kind = ErrorKind.notFound ∨ e.kind = ErrorKind.permissionDenied) :
    serveDirCall cfg fs ext fallback req = Except.ok (fallback.getD notFoundResponse) := by
  unfold serveDirCall
  rw [methodGate_none_of_get_or_head hm]
  unfold serveDirInner
  rw [hdec]
  simp only [hopen]
  rw [if_pos hk]

/-! ## Helper lemmas: header lookup -/

lemma hdrLookup_cons_ne {k k' v : String} {rest : List (String × String)} (h : k ≠ k') :
    hdrLookup k ((k', v) :: rest) = hdrLookup k rest := by simp [hdrLookup, h]

lemma hdrLookup_cons_self {k v : String} {rest : List (String × String)} :
    hdrLookup k ((k, v) :: rest) = some v := by simp [hdrLookup]

lemma hdrLookup_append {k : String} {l1 l2 : List (String × String)}
    (h : hdrLookup k l1 = none) : hdrLookup k (l1 ++ l2) = hdrLookup k l2 := by
  induction l1 with
  | nil => simp
  | cons a rest ih =>
    obtain ⟨k', v⟩ := a
    by_cases hk : k = k'
    · rw [hk] at h; rw [hdrLookup_cons_self] at h; exact absurd h (by simp)
    · rw [hdrLookup_cons_ne hk] at h
      rw [List.cons_append, hdrLookup_cons_ne hk]
      exact ih h

lemma hdrLookup_commonHeaders_none {k mime : String} {enc : Option Encoding} {lm : Option Nat}
    (h1 : k ≠ "content-type") (h2 : k ≠ "accept-ranges")
    (h3 : k ≠ "content-encoding") (h4 : k ≠ "last-modified") :
    hdrLookup k (commonHeaders mime enc lm) = none := by
  unfold commonHeaders
  cases enc <;> cases lm <;> simp [hdrLookup, h1, h2, h3, h4]

/-! ## Claim theorems -/

/-- C1 counterexample: the claim says a SingleFile handler ignores the request's
URI path and responds as if the decoded path were the configured `file_path`.
On a handler configured for `a.txt` over a filesystem holding `a.txt`, a GET for
`/b.txt` yields `404` while a GET for `/a.txt` (the configured path) yields
`200`, so the responses differ and the claim is false. -/
theorem c1_counterexample :
    statusOf (serveDirCall ⟨65536, ServeVariant.singleFile "text/plain", false⟩
        (singleFileFS (RPath.ofString "a.txt") innerC1) extC1 none reqC1b) = 404
    ∧ statusOf (serveDirCall ⟨65536, ServeVariant.singleFile "text/plain", false⟩
        (singleFileFS (RPath.ofString "a.txt") innerC1) extC1 none reqC1a) = 200 := by
  exact ⟨by decide, by decide⟩

/-- C1 amended: a SingleFile handler does not ignore the request's path, and it
does not compare the decoded path against `file_path` directly either: every
`SingleFileFilesystem` operation returns `NotFound` unless the path it is
handed equals the configured `file_path` (as components), and delegates to the
wrapped filesystem when it does.  A request is therefore served exactly when a
candidate path attempted by the encoding-fallback loop — the decoded path,
possibly with a compressed-variant suffix appended — equals `file_path`.  In
particular: for a GET with no negotiated encodings, a decoded path different
from `file_path` yields 404 (or the fallback's response), and a decoded path
equal to `file_path` is served from the wrapped filesystem; whereas with gzip
negotiated and `file_path = a.txt.gz`, a GET for `/a.txt` is served `200` even
though its decoded path differs from `file_path`, because the suffix-rewritten
candidate collides with it. -/
theorem c1_single_file_path_gate (inner : FS) (filePath : RPath) (mime d : String)
    (ext : Externals) (fallback : Option Response) (chunk : Nat) (flag : Bool) (req : Req) :
    (∀ p, rpathEq filePath p = false →
      (singleFileFS filePath inner).openFn p = Except.error nfErr
      ∧ (singleFileFS filePath inner).isDirFn p = Except.error nfErr
      ∧ (singleFileFS filePath inner).metadataFn p = Except.error nfErr)
    ∧ (∀ p, rpathEq filePath p = true →
      (singleFileFS filePath inner).openFn p = inner.openFn p)
    ∧ (req.method = Method.get → req.negotiated = [] →
      ext.percentDecode (strDropLeadingSlashes (uriPath req.uri)) = some d →
      rpathEq filePath (RPath.ofString d) = false →
      serveDirCall ⟨chunk, ServeVariant.singleFile mime, flag⟩ (singleFileFS filePath inner)
        ext fallback req = Except.ok (fallback.getD notFoundResponse))
    ∧ (rpathEq filePath (RPath.ofString d) = true →
      openFileWithFallback (singleFileFS filePath inner) (RPath.ofString d) [] =
        (inner.openFn (RPath.ofString d)).map (fun f => (f, none)))
    ∧ statusOf (serveDirCall ⟨65536, ServeVariant.singleFile "application/gzip", false⟩
        (singleFileFS (RPath.ofString "a.txt.gz") innerC1gz) extC1 none reqC1gz) = 200 := by
  refine ⟨?_, ?_, ?_, ?_, by decide⟩
  · intro p hne
    refine ⟨?_, ?_, ?_⟩ <;> simp [singleFileFS, hne]
  · intro p heq
    simp [singleFileFS, heq]
  · intro hm hneg hdec hne
    have hsfs : (singleFileFS filePath inner).openFn (RPath.ofString d) = Except.error nfErr := by
      simp [singleFileFS, hne]
    have hloop : openFileWithFallback (singleFileFS filePath inner) (RPath.ofString d) [] =
        Except.error nfErr := by
      unfold openFileWithFallback
      have hpe := withFallbackLoopFuel_pe_none (singleFileFS filePath inner).openFn
        (RPath.ofString d) [] (by rfl)
      rw [hpe, hsfs]
      rfl
    have hopen : openFile (singleFileFS filePath inner) (ServeVariant.singleFile mime)
        (RPath.ofString d) req ext req.negotiated req.rangeHeader chunk
        = Except.error nfErr := by
      unfold openFile
      dsimp only
      unfold openFileAfterDirStep
      rw [if_neg (by rw [hm]; intro hcontra; cases hcontra)]
      rw [hneg, hloop]
    exact serveDirCall_of_openFile_error (Or.inl hm) hdec hopen (Or.inl rfl)
  · intro heq
    unfold openFileWithFallback
    have hpe := withFallbackLoopFuel_pe_none (singleFileFS filePath inner).openFn
      (RPath.ofString d) [] (by rfl)
    rw [hpe]
    simp [singleFileFS, heq]

/-- C1 witness: the amended theorem applied to the concrete `a.txt` handler
and a GET for `/b.txt`. -/
theorem c1_witness :
    serveDirCall ⟨65536, ServeVariant.singleFile "text/plain", false⟩
      (singleFileFS (RPath.ofString "a.txt") innerC1) extC1 none reqC1b
      = Except.ok notFoundResponse :=
  (c1_single_file_path_gate innerC1 (RPath.ofString "a.txt") "text/plain" "b.txt"
    extC1 none 65536 false reqC1b).2.2.1 rfl rfl (by decide) (by decide)

/-- C2 counterexample: the claim says that with
`call_fallback_on_method_not_allowed = true` but no fallback configured, a
non-GET/HEAD request is answered `405`.  In the code that case falls through to
normal processing: a POST for an existing `a.txt` is served with status `200`,
not `405`. -/
theorem c2_counterexample :
    statusOf (serveDirCall ⟨65536, ServeVariant.directory true, true⟩ fsC2 extC2 none
      reqC2post) = 200 := by
  decide

/-- C2 amended: for a request whose method is neither GET nor HEAD — when
`call_fallback_on_method_not_allowed` is false, the response is `405 Method Not
Allowed` with `Allow: GET,HEAD` and an empty body; when the flag is true, a
configured fallback's response is returned, and with no fallback the request
falls through and is processed by the normal pipeline. -/
theorem c2_method_gate (cfg : Config) (fs : FS) (ext : Externals) (fallback : Option Response)
    (req : Req) (h : req.method ≠ Method.get ∧ req.method ≠ Method.head) :
    (cfg.callFallbackOnMethodNotAllowed = false →
      serveDirCall cfg fs ext fallback req = Except.ok methodNotAllowedResponse
      ∧ methodNotAllowedResponse.status = 405
      ∧ hdrLookup "allow" methodNotAllowedResponse.headers = some "GET,HEAD"
      ∧ methodNotAllowedResponse.body = RespBody.empty)
    ∧ (cfg.callFallbackOnMethodNotAllowed = true →
      (∀ r, fallback = some r → serveDirCall cfg fs ext fallback req = Except.ok r)
      ∧ (fallback = none →
          serveDirCall cfg fs ext fallback req = serveDirInner cfg fs ext none req)) := by
  constructor
  · intro hflag
    refine ⟨?_, rfl, rfl, rfl⟩
    unfold serveDirCall methodGate
    rw [if_pos h, hflag]
    rfl
  · intro hflag
    constructor
    · intro r hr
      unfold serveDirCall methodGate
      rw [if_pos h, hflag, hr]
      rfl
    · intro hr
      unfold serveDirCall methodGate
      rw [if_pos h, hflag, hr]
      rfl

/-- C2 witness: the amended theorem applied to the flag-off configuration and a
POST request, yielding the 405 response. -/
theorem c2_witness :
    serveDirCall ⟨65536, ServeVariant.directory true, false⟩ fsC2 extC2 none reqC2post
      = Except.ok methodNotAllowedResponse :=
  ((c2_method_gate ⟨65536, ServeVariant.directory true, false⟩ fsC2 extC2 none reqC2post
    (by decide)).1 rfl).1

/-- C5 counterexample: the claim says every embedded-backend seek past the end
fails with `InvalidInput`, in all three modes.  On a 3-byte file, `End(5)`
(resulting position 8, past the end) succeeds, `Start(10)` succeeds, and
`Current(5)` from cursor 2 (resulting position 7, past the end) succeeds; only
a resulting negative (or usize-overflowing) position fails. -/
theorem c5_counterexample :
    startSeek ⟨[1, 2, 3], none, 0⟩ (SeekFrom.end_ 5) = Except.ok ⟨[1, 2, 3], none, 8⟩
    ∧ startSeek ⟨[1, 2, 3], none, 0⟩ (SeekFrom.start 10)
        = Except.ok ⟨[1, 2, 3], none, 10⟩
    ∧ startSeek ⟨[1, 2, 3], none, 2⟩ (SeekFrom.current 5)
        = Except.ok ⟨[1, 2, 3], none, 7⟩ := by
  exact ⟨by decide, rfl, by decide⟩

/-- C5 amended: in the embedded backend, a seek via `End` or `Current` fails
with `InvalidInput` exactly when the resulting position is negative or exceeds
the usize range; otherwise it succeeds even past the end of the contents
(subsequent reads then return no bytes), and `Start` never fails. -/
theorem c5_seek_invalid_input (f : MFile) (e c : Int) (s : Nat) :
    (((f.contents.length : Int) + e < 0 ∨ (2 : Int) ^ 64 ≤ (f.contents.length : Int) + e) →
      startSeek f (SeekFrom.end_ e) = Except.error invalidInputErr)
    ∧ (((f.index : Int) + c < 0 ∨ (2 : Int) ^ 64 ≤ (f.index : Int) + c) →
      startSeek f (SeekFrom.current c) = Except.error invalidInputErr)
    ∧ (¬ ((f.contents.length : Int) + e < 0 ∨ (2 : Int) ^ 64 ≤ (f.contents.length : Int) + e) →
      startSeek f (SeekFrom.end_ e)
        = Except.ok { f with index := ((f.contents.length : Int) + e).toNat })
    ∧ (¬ ((f.index : Int) + c < 0 ∨ (2 : Int) ^ 64 ≤ (f.index : Int) + c) →
      startSeek f (SeekFrom.current c)
        = Except.ok { f with index := ((f.index : Int) + c).toNat })
    ∧ startSeek f (SeekFrom.start s) = Except.ok { f with index := s }
    ∧ (f.contents.length ≤ f.index → pollReadAll f = []) := by
  refine ⟨?_, ?_, ?_, ?_, rfl, ?_⟩
  · intro h
    unfold startSeek checkedAddSigned
    dsimp only
    rw [if_pos h]
  · intro h
    unfold startSeek checkedAddSigned
    dsimp only
    rw [if_pos h]
  · intro h
    unfold startSeek checkedAddSigned
    dsimp only
    rw [if_neg h]
  · intro h
    unfold startSeek checkedAddSigned
    dsimp only
    rw [if_neg h]
  · intro h
    unfold pollReadAll
    rw [if_pos h]

/-- C5 witness: the amended theorem applied to a 3-byte file and `End(-5)`,
whose resulting position is negative. -/
theorem c5_witness :
    startSeek ⟨[1, 2, 3], none, 0⟩ (SeekFrom.end_ (-5)) = Except.error invalidInputErr :=
  (c5_seek_invalid_input ⟨[1, 2, 3], none, 0⟩ (-5) 0 0).1 (by decide)

/-- C10 (confirmed): in the Directory variant, when the filesystem's `is_dir`
returns an error of any kind, `maybe_redirect_or_append_path` treats the path
as not a directory: it emits no output (no Redirect, no FileNotFound), leaves
the candidate path unchanged (no `index.html` appended), and `open_file`
proceeds with the pipeline tail on the candidate path itself. -/
theorem c10_isdir_error (fs : FS) (p : RPath) (uri : Uri) (append : Bool) (e : IOErr)
    (h : fs.isDirFn p = Except.error e) :
    maybeRedirectOrAppendPath fs p uri append = (none, p)
    ∧ ∀ (req : Req) (ext : Externals) (neg : List (Encoding × Nat)) (rh : Option String)
        (chunk : Nat), req.uri = uri →
        openFile fs (ServeVariant.directory append) p req ext neg rh chunk
          = openFileAfterDirStep fs p
              ((ext.mimeGuess (rPathToString p)).getD "application/octet-stream")
              req ext neg rh chunk := by
  constructor
  · exact maybeRedirect_isDir_error h
  · intro req ext neg rh chunk hu
    unfold openFile
    dsimp only
    rw [hu, maybeRedirect_isDir_error h]

/-- C10 witness: the theorem applied to a filesystem whose `is_dir` fails with
`PermissionDenied`. -/
theorem c10_witness :
    maybeRedirectOrAppendPath fsC10 ["a"] ⟨none, none, some ("/a", none)⟩ true
      = (none, ["a"]) :=
  (c10_isdir_error fsC10 ["a"] ⟨none, none, some ("/a", none)⟩ true
    ⟨ErrorKind.permissionDenied⟩ rfl).1

/-- C3 (confirmed): for a request whose decoded path contains a parent-dir
(`..`) component, served by the on-disk backend, `build_and_validate_path`
returns `None`, the backend's `open` returns `NotFound`, the handler responds
`404` (or with the fallback's response), and every path the validator does
accept is the base followed by validated normal components, so the host
filesystem is never handed a path outside the base. -/
theorem c3_traversal_rejected (host : FS) (base : RPath) (ext : Externals)
    (fallback : Option Response) (req : Req) (chunk : Nat) (app flag : Bool) (d : String)
    (hm : req.method = Method.get ∨ req.method = Method.head)
    (hdec : ext.percentDecode (strDropLeadingSlashes (uriPath req.uri)) = some d)
    (hpd : Component.parentDir ∈ rcomponents (RPath.ofString d)) :
    buildAndValidatePath base (RPath.ofString d) = none
    ∧ (diskFS base host).openFn (RPath.ofString d) = Except.error nfErr
    ∧ serveDirCall ⟨chunk, ServeVariant.directory app, flag⟩ (diskFS base host) ext fallback req
        = Except.ok (fallback.getD notFoundResponse)
    ∧ (∀ p q, buildAndValidatePath base p = some q →
        ∃ extra, q = base ++ extra ∧ ∀ s ∈ extra, (rcomponents [s]).all isNormalComp = true) := by
  refine ⟨buildAndValidatePath_parentDir hpd, diskFS_openFn_parentDir host hpd, ?_, ?_⟩
  · have hopen : openFile (diskFS base host) (ServeVariant.directory app) (RPath.ofString d)
        req ext req.negotiated req.rangeHeader chunk = Except.error nfErr := by
      unfold openFile
      dsimp only
      rw [maybeRedirect_isDir_error (diskFS_isDirFn_parentDir host hpd)]
      dsimp only
      unfold openFileAfterDirStep
      by_cases hh : req.method = Method.head
      · rw [if_pos hh]
        rw [fileMetadataWithFallback_inv_error (fun p => Component.parentDir ∈ rcomponents p)
          (fun p x hp => parentDir_rSetExtension x hp)
          (fun p hp => diskFS_metadataFn_parentDir host hp) req.negotiated hpd]
      · rw [if_neg hh]
        rw [openFileWithFallback_inv_error (fun p => Component.parentDir ∈ rcomponents p)
          (fun p x hp => parentDir_rSetExtension x hp)
          (fun p hp => diskFS_openFn_parentDir host hp) req.negotiated hpd]
    exact serveDirCall_of_openFile_error hm hdec hopen (Or.inl rfl)
  · intro p q h
    exact buildAndValidatePathAux_sound h

/-- C3 witness: the theorem applied to a GET for `/../etc/passwd` over a host
filesystem that would happily serve anything. -/
theorem c3_witness :
    serveDirCall ⟨65536, ServeVariant.directory true, false⟩
      (diskFS ["base"] hostC3) extC3 none reqC3 = Except.ok notFoundResponse :=
  (c3_traversal_rejected hostC3 ["base"] extC3 none reqC3 65536 true false "../etc/passwd"
    (Or.inl rfl) (by decide) (by decide)).2.2.1

/-- C6 (confirmed): with an `If-Unmodified-Since: S` header, whenever the
file's modified time is unknown or exceeds `S`, `check_modified_headers`
returns `PreconditionFailed` regardless of any `If-Modified-Since` header
(the check runs first), and the handler maps that outcome to a `412` response
with an empty body. -/
theorem c6_if_unmodified_since (modified : Option Nat) (s : Nat) (ims : Option Nat)
    (hfail : ∀ t, modified = some t → s < t) :
    checkModifiedHeaders modified (some s) ims = some OpenFileOutput.preconditionFailed
    ∧ (∀ (cfg : Config) (fs : FS) (ext : Externals) (fallback : Option Response) (req : Req)
        (d : String), (req.method = Method.get ∨ req.method = Method.head) →
        ext.percentDecode (strDropLeadingSlashes (uriPath req.uri)) = some d →
        openFile fs cfg.variant (RPath.ofString d) req ext req.negotiated req.rangeHeader
          cfg.bufChunkSize = Except.ok OpenFileOutput.preconditionFailed →
        serveDirCall cfg fs ext fallback req = Except.ok ⟨412, [], RespBody.empty⟩) := by
  constructor
  · unfold checkModifiedHeaders iusFails
    cases modified with
    | none => rfl
    | some t =>
      have ht := hfail t rfl
      have : preconditionPasses s t = false := by
        unfold preconditionPasses
        simp
        omega
      simp [this]
  · intro cfg fs ext fallback req d hm hdec hopen
    exact serveDirCall_of_openFile hm hdec hopen

/-- C6 witness: the theorem applied to an unknown mtime with both conditional
headers present. -/
theorem c6_witness :
    checkModifiedHeaders none (some 5) (some 9) = some OpenFileOutput.preconditionFailed :=
  (c6_if_unmodified_since none 5 (some 9) (fun t ht => by cases ht)).1

/-- C7 (confirmed): the encoding-fallback selection terminates for every
finite negotiated list — fuel `length + 1` never runs out for either the open
or the metadata loop; when no compressed candidate is viable the uncompressed
path is tried and its result (including `NotFound`) is returned; when every
open fails `NotFound` the error surfaces after the candidates are exhausted;
and a non-`NotFound` error is propagated immediately. -/
theorem c7_fallback_loop_terminates (fs : FS) (path : RPath)
    (neg : List (Encoding × Nat)) :
    (withFallbackLoopFuel fs.openFn (neg.length + 1) path neg).isSome = true
    ∧ (withFallbackLoopFuel fs.metadataFn (neg.length + 1) path neg).isSome = true
    ∧ (Encoding.preferredEncoding neg = none →
        openFileWithFallback fs path neg = (fs.openFn path).map (fun f => (f, none)))
    ∧ ((∀ q, fs.openFn q = Except.error nfErr) →
        openFileWithFallback fs path neg = Except.error nfErr)
    ∧ (∀ e, fs.openFn (preferredEncodingStep path neg).1 = Except.error e →
        e.kind ≠ ErrorKind.notFound → openFileWithFallback fs path neg = Except.error e)
    ∧ ((∀ q, fs.metadataFn q = Except.error nfErr) →
        fileMetadataWithFallback fs path neg = Except.error nfErr) := by
  refine ⟨withFallbackLoopFuel_isSome fs.openFn _ _ _ (Nat.lt_succ_self _),
    withFallbackLoopFuel_isSome fs.metadataFn _ _ _ (Nat.lt_succ_self _), ?_, ?_, ?_, ?_⟩
  · intro h
    unfold openFileWithFallback
    rw [withFallbackLoopFuel_pe_none fs.openFn path neg h]
    rfl
  · intro h
    exact openFileWithFallback_inv_error (fun _ => True) (fun _ _ _ => trivial)
      (fun p _ => h p) neg trivial
  · intro e ha hk
    unfold openFileWithFallback
    rw [withFallbackLoopFuel_err_propagate fs.openFn path neg e ha hk]
    rfl
  · intro h
    exact fileMetadataWithFallback_inv_error (fun _ => True) (fun _ _ _ => trivial)
      (fun p _ => h p) neg trivial

/-- C7 witness: the theorem applied to an all-`NotFound` filesystem with two
negotiated encodings. -/
theorem c7_witness :
    openFileWithFallback fsC7 ["foo.txt"] [(Encoding.gzip, 1000), (Encoding.br, 900)]
      = Except.error nfErr :=
  (c7_fallback_loop_terminates fsC7 ["foo.txt"]
    [(Encoding.gzip, 1000), (Encoding.br, 900)]).2.2.2.1 (fun _ => rfl)

/-- C8 (confirmed): when the parsed `Range` header holds more than one range,
`build_response` produces status `416 Range Not Satisfiable`, header
`Content-Range: bytes */L`, and the literal body text
`"Cannot serve multipart range requests"`; the handler returns that response
unchanged. -/
theorem c8_multipart_range (o : FileOpened) (ranges : List (Nat × Nat))
    (hr : o.maybeRange = some (Except.ok ranges)) (hlen : 1 < ranges.length) :
    (buildResponse o).status = 416
    ∧ hdrLookup "content-range" (buildResponse o).headers
        = some ("bytes */" ++ toString o.extent.size)
    ∧ (buildResponse o).body = RespBody.text "Cannot serve multipart range requests"
    ∧ (∀ (cfg : Config) (fs : FS) (ext : Externals) (fallback : Option Response) (req : Req)
        (d : String), (req.method = Method.get ∨ req.method = Method.head) →
        ext.percentDecode (strDropLeadingSlashes (uriPath req.uri)) = some d →
        openFile fs cfg.variant (RPath.ofString d) req ext req.negotiated req.rangeHeader
          cfg.bufChunkSize = Except.ok (OpenFileOutput.fileOpened o) →
        serveDirCall cfg fs ext fallback req = Except.ok (buildResponse o)) := by
  obtain ⟨a, tl, rfl⟩ : ∃ x tl, ranges = x :: tl := by
    cases ranges with
    | nil => simp at hlen
    | cons x tl => exact ⟨x, tl, rfl⟩
  obtain ⟨b, t, rfl⟩ : ∃ y t, tl = y :: t := by
    cases tl with
    | nil => simp at hlen
    | cons y t => exact ⟨y, t, rfl⟩
  have hresp : buildResponse o =
      ⟨416, commonHeaders o.mimeHeaderValue o.maybeEncoding o.lastModified
          ++ [("content-range", "bytes */" ++ toString o.extent.size)],
        RespBody.text "Cannot serve multipart range requests"⟩ := by
    unfold buildResponse
    rw [hr]
    dsimp only [List.head?]
    rw [if_pos (by simp)]
  refine ⟨by rw [hresp], ?_, by rw [hresp], ?_⟩
  · rw [hresp]
    exact (hdrLookup_append (hdrLookup_commonHeaders_none (by decide) (by decide) (by decide)
      (by decide))).trans hdrLookup_cons_self
  · intro cfg fs ext fallback req d hm hdec hopen
    exact serveDirCall_of_openFile hm hdec hopen

/-- C8 witness: the theorem applied to an output carrying ranges
`[(0,1), (3,4)]`. -/
theorem c8_witness :
    (buildResponse oC8).status = 416
    ∧ (buildResponse oC8).body = RespBody.text "Cannot serve multipart range requests" := by
  have h := c8_multipart_range oC8 [(0, 1), (3, 4)] rfl (by decide)
  exact ⟨h.1, h.2.2.1⟩

/-- C9 (confirmed): in the Directory variant, a request whose URI path does
not end in `/` and whose candidate path is a directory yields a Redirect whose
location is the request URI with a single `/` appended to the path, preserving
scheme, authority and query; the handler responds `307 Temporary Redirect`
with that `Location` and an empty body. -/
theorem c9_directory_redirect (fs : FS) (ext : Externals) (fallback : Option Response)
    (req : Req) (chunk : Nat) (app flag : Bool) (d : String)
    (hm : req.method = Method.get ∨ req.method = Method.head)
    (hdec : ext.percentDecode (strDropLeadingSlashes (uriPath req.uri)) = some d)
    (hslash : strEndsWithSlash (uriPath req.uri) = false)
    (hdir : fs.isDirFn (RPath.ofString d) = Except.ok true) :
    maybeRedirectOrAppendPath fs (RPath.ofString d) req.uri app
      = (some (OpenFileOutput.redirect (uriToString (appendSlashOnPath req.uri))),
          RPath.ofString d)
    ∧ openFile fs (ServeVariant.directory app) (RPath.ofString d) req ext req.negotiated
        req.rangeHeader chunk
      = Except.ok (OpenFileOutput.redirect (uriToString (appendSlashOnPath req.uri)))
    ∧ serveDirCall ⟨chunk, ServeVariant.directory app, flag⟩ fs ext fallback req
      = Except.ok ⟨307, [("location", uriToString (appendSlashOnPath req.uri))],
          RespBody.empty⟩
    ∧ (∀ pt qy, req.uri.pathAndQuery = some (pt, qy) → pt ≠ "" →
        appendSlashOnPath req.uri
          = ⟨req.uri.scheme, req.uri.authority, some (pt ++ "/", qy)⟩) := by
  have hmr : maybeRedirectOrAppendPath fs (RPath.ofString d) req.uri app
      = (some (OpenFileOutput.redirect (uriToString (appendSlashOnPath req.uri))),
          RPath.ofString d) := by
    unfold maybeRedirectOrAppendPath
    rw [hslash, hdir]
    simp [exceptGetD]
  have hopen : openFile fs (ServeVariant.directory app) (RPath.ofString d) req ext
      req.negotiated req.rangeHeader chunk
      = Except.ok (OpenFileOutput.redirect (uriToString (appendSlashOnPath req.uri))) := by
    unfold openFile
    dsimp only
    rw [hmr]
  refine ⟨hmr, hopen, ?_, ?_⟩
  · have hsd := @serveDirCall_of_openFile ⟨chunk, ServeVariant.directory app, flag⟩ fs ext
      fallback req d (OpenFileOutput.redirect (uriToString (appendSlashOnPath req.uri)))
      hm hdec hopen
    exact hsd
  intro pt qy hpq hne
  unfold appendSlashOnPath
  rw [hpq]
  dsimp only
  unfold pqPath
  rw [if_neg hne]

/-- C9 witness: the theorem applied to a GET for `/subdir?x=1` where `subdir`
is a directory; the redirect location is `/subdir/?x=1`. -/
theorem c9_witness :
    serveDirCall ⟨65536, ServeVariant.directory true, false⟩ fsC9 extC9 none reqC9
      = Except.ok ⟨307, [("location", "/subdir/?x=1")], RespBody.empty⟩ :=
  (c9_directory_redirect fsC9 extC9 none reqC9 65536 true false "subdir"
    (Or.inl rfl) (by decide) (by decide) (by decide)).2.2.1

/-- C4 (confirmed): for a GET request whose `Range` header parses to exactly
one satisfiable range `S..=E` against the file length `L`, the pipeline seeks
the opened file to `S` before the response is built, and the response has
status `206 Partial Content`, `Content-Range: bytes S-E/L`,
`Content-Length: E-S+1`, and a body streaming exactly the `E-S+1` bytes
`file[S..=E]`. -/
theorem c4_single_range (fs : FS) (req : Req) (ext : Externals) (fallback : Option Response)
    (chunk : Nat) (flag : Bool) (mime d rh : String) (file : MFile) (enc : Option Encoding)
    (S E : Nat)
    (hm : req.method = Method.get)
    (hrh : req.rangeHeader = some rh)
    (hopen : openFileWithFallback fs (RPath.ofString d) req.negotiated = Except.ok (file, enc))
    (hcond : checkModifiedHeaders file.modified req.ifUnmodifiedSince req.ifModifiedSince = none)
    (hparse : ext.parseRange rh file.contents.length = Except.ok [(S, E)])
    (hSE : S ≤ E) (hEL : E < file.contents.length)
    (hdec : ext.percentDecode (strDropLeadingSlashes (uriPath req.uri)) = some d) :
    openFile fs (ServeVariant.singleFile mime) (RPath.ofString d) req ext req.negotiated
        req.rangeHeader chunk
      = Except.ok (OpenFileOutput.fileOpened (rangeFileOpened file S E chunk mime enc))
    ∧ serveDirCall ⟨chunk, ServeVariant.singleFile mime, flag⟩ fs ext fallback req
      = Except.ok (buildResponse (rangeFileOpened file S E chunk mime enc))
    ∧ (buildResponse (rangeFileOpened file S E chunk mime enc)).status = 206
    ∧ hdrLookup "content-range"
        (buildResponse (rangeFileOpened file S E chunk mime enc)).headers
      = some ("bytes " ++ toString S ++ "-" ++ toString E ++ "/"
          ++ toString file.contents.length)
    ∧ hdrLookup "content-length"
        (buildResponse (rangeFileOpened file S E chunk mime enc)).headers
      = some (toString (E - S + 1))
    ∧ (buildResponse (rangeFileOpened file S E chunk mime enc)).body
      = RespBody.stream ((file.contents.drop S).take (E - S + 1))
    ∧ (file.contents.drop S).take (E - S + 1) = (file.contents.take (E + 1)).drop S
    ∧ ((file.contents.drop S).take (E - S + 1)).length = E - S + 1 := by
  have hof : openFile fs (ServeVariant.singleFile mime) (RPath.ofString d) req ext
      req.negotiated req.rangeHeader chunk
      = Except.ok (OpenFileOutput.fileOpened (rangeFileOpened file S E chunk mime enc)) := by
    unfold openFile
    dsimp only
    unfold openFileAfterDirStep
    rw [if_neg (by rw [hm]; intro hcontra; cases hcontra)]
    rw [hopen]
    dsimp only [MFile.meta]
    rw [hcond]
    unfold tryParseRange
    rw [hrh]
    dsimp only [Option.map]
    rw [hparse]
    rfl
  have hresp : buildResponse (rangeFileOpened file S E chunk mime enc)
      = ⟨206,
          commonHeaders mime enc file.modified
            ++ [("content-range", "bytes " ++ toString S ++ "-" ++ toString E ++ "/"
                  ++ toString file.contents.length),
                ("content-length", toString (E - S + 1))],
          RespBody.stream ((file.contents.drop S).take (E - S + 1))⟩ := by
    unfold buildResponse rangeFileOpened
    dsimp only [List.head?, Extent.size, MFile.meta]
    rw [if_neg (by simp)]
  have hsd := @serveDirCall_of_openFile ⟨chunk, ServeVariant.singleFile mime, flag⟩ fs ext
    fallback req d (OpenFileOutput.fileOpened (rangeFileOpened file S E chunk mime enc))
    (Or.inl hm) hdec hof
  refine ⟨hof, hsd, by rw [hresp], ?_, ?_, by rw [hresp], ?_, ?_⟩
  · rw [hresp]
    exact (hdrLookup_append (hdrLookup_commonHeaders_none (by decide) (by decide) (by decide)
      (by decide))).trans hdrLookup_cons_self
  · rw [hresp]
    refine (hdrLookup_append (hdrLookup_commonHeaders_none (by decide) (by decide) (by decide)
      (by decide))).trans ?_
    rw [hdrLookup_cons_ne (by decide)]
    exact hdrLookup_cons_self
  · rw [List.drop_take]
    congr 1
    omega
  · rw [List.length_take, List.length_drop]
    omega

/-- C4 witness: the theorem applied to a ten-byte file and the single range
`2..=4`. -/
theorem c4_witness :
    serveDirCall ⟨65536, ServeVariant.singleFile "app/bin", false⟩ fsC4 extC4 none reqC4
      = Except.ok (buildResponse (rangeFileOpened fileC4 2 4 65536 "app/bin" none)) :=
  (c4_single_range fsC4 reqC4 extC4 none 65536 false "app/bin" "f.bin" "bytes=2-4" fileC4 none
    2 4 rfl rfl (by decide) rfl rfl (by decide) (by decide) (by decide)).2.1
